import Mathlib

/-!
Shallow embedding of the CryptoHub persistence / portfolio / alert / indicator
core (`src/utils/storageManager.js` and `src/utils/cryptoUtils.js`).

JS numbers are modelled as exact rationals.  The one place where the source can
produce IEEE special values with exact inputs (the unguarded seed formula of
`calculateRSI`) is modelled explicitly by the `JsNum` domain below.  Times
(`Date.now()`) are threaded as explicit `now : Nat` arguments.
-/

namespace CryptoHub

/-! ### Portfolio ledger (`PortfolioManager`) -/

/-- A holdings-projection record, as stored under the `portfolio` key. -/
structure Holding where
  coinId : String
  symbol : String
  name : String
  amount : ℚ
  averagePrice : ℚ
  createdAt : Nat
  updatedAt : Nat
deriving Repr, DecidableEq

/-- A ledger transaction (`type` is the JS string tag, `"buy"` or `"sell"`). -/
structure Transaction where
  coinId : String
  symbol : String
  name : String
  type : String
  price : ℚ
  amount : ℚ
deriving Repr, DecidableEq

/-- `Array.prototype.findIndex`, returning `none` for `-1`. -/
def findIndex (p : α → Bool) : List α → Option Nat
  | [] => none
  | x :: xs => if p x then some 0 else (findIndex p xs).map (· + 1)

/-- `PortfolioManager.updateHoldings` (storageManager.js:476-522), acting on the
holdings list read from storage; the surrounding `get`/`set` round trip is the
identity for a well-formed store. -/
def updateHoldings (holdings : List Holding) (tx : Transaction) (now : Nat) : List Holding :=
  let existingIndex := findIndex (fun h => h.coinId == tx.coinId) holdings
  if tx.type == "buy" then
    match existingIndex with
    | some i =>
      match holdings[i]? with
      | some existing =>
        let totalCost := existing.averagePrice * existing.amount + tx.price * tx.amount
        let totalAmount := existing.amount + tx.amount
        holdings.set i { existing with
          amount := totalAmount
          averagePrice := totalCost / totalAmount
          updatedAt := now }
      | none => holdings
    | none =>
      holdings ++ [{ coinId := tx.coinId, symbol := tx.symbol, name := tx.name,
                     amount := tx.amount, averagePrice := tx.price,
                     createdAt := now, updatedAt := now }]
  else if tx.type == "sell" then
    match existingIndex with
    | some i =>
      match holdings[i]? with
      | some existing =>
        let newAmount := existing.amount - tx.amount
        if newAmount ≤ 0 then
          holdings.eraseIdx i
        else
          holdings.set i { existing with amount := newAmount, updatedAt := now }
      | none => holdings
    | none => holdings
  else holdings

/-- Accumulator entry of `recalculateHoldings` (the JS `Map` value). -/
structure CostAcc where
  coinId : String
  symbol : String
  name : String
  amount : ℚ
  totalCost : ℚ
deriving Repr, DecidableEq

/-- One iteration of the `for (const tx of transactions)` loop of
`recalculateHoldings`; the JS `Map` is modelled as an insertion-ordered
association list. -/
def applyTx (acc : List CostAcc) (tx : Transaction) : List CostAcc :=
  let existing := (acc.find? (fun h => h.coinId == tx.coinId)).getD
      { coinId := tx.coinId, symbol := tx.symbol, name := tx.name,
        amount := 0, totalCost := 0 }
  let upd :=
    if tx.type == "buy" then
      { existing with amount := existing.amount + tx.amount,
                      totalCost := existing.totalCost + tx.price * tx.amount }
    else if tx.type == "sell" then
      { existing with amount := existing.amount - tx.amount,
                      totalCost := existing.totalCost - tx.price * tx.amount }
    else existing
  if acc.any (fun h => h.coinId == tx.coinId) then
    acc.map (fun h => if h.coinId == tx.coinId then upd else h)
  else acc ++ [upd]

/-- `PortfolioManager.recalculateHoldings` (storageManager.js:542-575): full
rebuild of the holdings projection from the transaction log.  (The JS result
objects additionally retain their `totalCost` field and have no `createdAt`;
only the fields of `Holding` that the claims mention are projected.) -/
def recalculateHoldings (txs : List Transaction) (now : Nat) : List Holding :=
  let acc := txs.foldl applyTx []
  (acc.filter (fun h => decide (0 < h.amount))).map
    (fun h => { coinId := h.coinId, symbol := h.symbol, name := h.name,
                amount := h.amount, averagePrice := h.totalCost / h.amount,
                createdAt := now, updatedAt := now })

/-- The incremental path: apply each transaction in turn via `updateHoldings`
(the path taken by repeated `addTransaction` calls). -/
def replayIncremental (txs : List Transaction) (now : Nat) : List Holding :=
  txs.foldl (fun hs tx => updateHoldings hs tx now) []

/-- Buy two units at price 10, then sell one unit at price 100 — the input on
which the two projection paths disagree. -/
def txsC1 : List Transaction :=
  [ { coinId := "btc", symbol := "BTC", name := "Bitcoin",
      type := "buy", price := 10, amount := 2 },
    { coinId := "btc", symbol := "BTC", name := "Bitcoin",
      type := "sell", price := 100, amount := 1 } ]

/-- A sequence of buy fills `(price, amount)` for one coin, as transactions. -/
def buysOf (c sym nm : String) (fills : List (ℚ × ℚ)) : List Transaction :=
  fills.map (fun pa =>
    { coinId := c, symbol := sym, name := nm, type := "buy", price := pa.1, amount := pa.2 })

/-! ### JS IEEE-754 special values

All arithmetic the claims touch is exact except the unguarded seed formula of
`calculateRSI`, which can evaluate `avgGain / avgLoss` with `avgLoss = 0`.
`JsNum` models a JS number as an exact rational or one of the special values
`Infinity`, `-Infinity`, `NaN`, with IEEE semantics for `+`, `-`, `/`. -/

inductive JsNum where
  | num (q : ℚ)
  | inf
  | ninf
  | nan
deriving Repr, DecidableEq

/-- IEEE addition on `JsNum`. -/
def jadd : JsNum → JsNum → JsNum
  | .nan, _ => .nan
  | _, .nan => .nan
  | .num a, .num b => .num (a + b)
  | .inf, .ninf => .nan
  | .ninf, .inf => .nan
  | .inf, _ => .inf
  | .ninf, _ => .ninf
  | .num _, .inf => .inf
  | .num _, .ninf => .ninf

/-- IEEE subtraction on `JsNum`. -/
def jsub : JsNum → JsNum → JsNum
  | .nan, _ => .nan
  | _, .nan => .nan
  | .num a, .num b => .num (a - b)
  | .num _, .inf => .ninf
  | .num _, .ninf => .inf
  | .inf, .inf => .nan
  | .ninf, .ninf => .nan
  | .inf, _ => .inf
  | .ninf, _ => .ninf

/-- IEEE division on `JsNum` (`0/0 = NaN`, `x/0 = ±Infinity` for `x ≠ 0`). -/
def jdiv : JsNum → JsNum → JsNum
  | .nan, _ => .nan
  | _, .nan => .nan
  | .num a, .num b =>
      if b = 0 then
        if a = 0 then .nan else if 0 < a then .inf else .ninf
      else .num (a / b)
  | .num _, .inf => .num 0
  | .num _, .ninf => .num 0
  | .inf, .num b => if 0 ≤ b then .inf else .ninf
  | .ninf, .num b => if 0 ≤ b then .ninf else .inf
  | .inf, .inf => .nan
  | .inf, .ninf => .nan
  | .ninf, .inf => .nan
  | .ninf, .ninf => .nan

/-! ### `calculateRSI` (cryptoUtils.js:457-486) -/

/-- The RSI formula `100 - (100 / (1 + avgGain / avgLoss))` exactly as written
in the source, evaluated with JS arithmetic. -/
def rsiValue (avgGain avgLoss : ℚ) : JsNum :=
  jsub (.num 100) (jdiv (.num 100) (jadd (.num 1) (jdiv (.num avgGain) (.num avgLoss))))

/-- The Wilder-smoothing loop of `calculateRSI` (`for (let i = period; ...)`),
over the remaining `(gain, loss)` pairs.  Note this loop guards the
`avgLoss === 0` case, unlike the seed value. -/
def wilderLoop (period : Nat) (gl : List (ℚ × ℚ)) (avgGain avgLoss : ℚ) : List JsNum :=
  match gl with
  | [] => []
  | x :: rest =>
      let ag := (avgGain * ((period : ℚ) - 1) + x.1) / (period : ℚ)
      let al := (avgLoss * ((period : ℚ) - 1) + x.2) / (period : ℚ)
      (if al = 0 then JsNum.num 100 else rsiValue ag al) :: wilderLoop period rest ag al

/-- `calculateRSI` (cryptoUtils.js:457-486). -/
def calculateRSI (data : List ℚ) (period : Nat) : List JsNum :=
  if data.length < period + 1 then []
  else
    let changes := List.zipWith (fun a b => b - a) data data.tail
    let gains := changes.map (fun c => if 0 < c then c else 0)
    let losses := changes.map (fun c => if c < 0 then |c| else 0)
    let avgGain := (gains.take period).sum / (period : ℚ)
    let avgLoss := (losses.take period).sum / (period : ℚ)
    rsiValue avgGain avgLoss ::
      wilderLoop period (List.zip (gains.drop period) (losses.drop period)) avgGain avgLoss

/-! ### `StorageManager` (storageManager.js:58-322)

The underlying medium (`localStorage`) is a byte-oriented key/value store; we
model it as an insertion-ordered association list whose values are either a
parseable envelope or unparseable bytes (`Item.junk`, on which `JSON.parse`
throws).  Whether a `setItem` succeeds, fails with `QuotaExceededError`, or
fails otherwise is decided by an arbitrary oracle, since it depends on the
medium's capacity.  Listener callbacks are opaque; invoking one is recorded as
an event `(listener id, passed value)`, and a callback that throws is modelled
by its `throws` flag (the source wraps every callback in `try/catch`, so all
listeners are invoked regardless). -/

/-- `STORAGE_PREFIX` — the `cryptohub_` key namespace. -/
def NS : String := "cryptohub_"

/-- `STORAGE_VERSION`. -/
def STORAGE_VERSION : String := "1.0"

/-- The stored envelope `{value, version, timestamp, expires}`;
`expires = none` models an absent / `null` field. -/
structure Envelope (α : Type) where
  value : α
  version : String
  timestamp : Nat
  expires : Option Nat
deriving Repr, DecidableEq

/-- A raw stored record: a serialized envelope, or bytes `JSON.parse` rejects. -/
inductive Item (α : Type) where
  | junk
  | stored (e : Envelope α)
deriving Repr, DecidableEq

/-- A subscribed listener callback; `throws` marks a callback that raises. -/
structure Listener where
  lid : Nat
  throws : Bool
deriving Repr, DecidableEq

/-- The state of a `StorageManager`: the raw medium plus the listener map. -/
structure SMState (α : Type) where
  raw : List (String × Item α)
  listeners : List (String × List Listener)
deriving Repr, DecidableEq

/-- `storage.getItem` (first match; keys are unique in a real medium). -/
def rawLookup (d : List (String × Item α)) (k : String) : Option (Item α) :=
  (d.find? (fun p => p.1 == k)).map Prod.snd

/-- `storage.setItem`: replace the record under `k`, or append a new one. -/
def rawPut (d : List (String × Item α)) (k : String) (it : Item α) :
    List (String × Item α) :=
  match d with
  | [] => [(k, it)]
  | p :: rest => if p.1 == k then (k, it) :: rest else p :: rawPut rest k it

/-- `storage.removeItem`. -/
def rawDel (d : List (String × Item α)) (k : String) : List (String × Item α) :=
  d.filter (fun p => !(p.1 == k))

/-- Character-list matching used for the namespace check
(`key.startsWith(this.prefix)`). -/
def listPre : List Char → List Char → Bool
  | [], _ => true
  | _ :: _, [] => false
  | a :: as, b :: bs => a == b && listPre as bs

/-- `key.startsWith(STORAGE_PREFIX)`. -/
def hasNS (s : String) : Bool := listPre NS.data s.data

/-- The expiry test `item.expires && Date.now() > item.expires` (JS truthiness:
an `expires` of `0` is falsy and never triggers expiry). -/
def isExpired (now : Nat) (e : Envelope α) : Bool :=
  match e.expires with
  | some t => t != 0 && decide (t < now)
  | none => false

/-- `StorageManager.clearExpired` (storageManager.js:217-238): sweep every
namespaced record, deleting expired envelopes and unparseable records.  (The
source additionally returns the number of removals, which no claim uses.) -/
def clearExpiredRaw (now : Nat) (d : List (String × Item α)) :
    List (String × Item α) :=
  d.filter (fun p =>
    if hasNS p.1 then
      match p.2 with
      | .junk => false
      | .stored e => !(isExpired now e)
    else true)

/-- Outcome of a raw `setItem` attempt. -/
inductive SetOutcome where
  | ok
  | quotaExceeded
  | otherError
deriving Repr, DecidableEq

/-- Capacity oracle for the medium: decides how `setItem` behaves on a given
raw state, key, and record. -/
def Oracle (α : Type) : Type :=
  List (String × Item α) → String → Item α → SetOutcome

/-- `StorageManager.notifyListeners` (storageManager.js:310-321): invoke every
listener registered for `key` with the new value, in registration order; each
call is wrapped in `try/catch`, so even a throwing listener (`throws = true`)
is invoked and the rest still run. -/
def notifyListeners (st : SMState α) (key : String) (v : Option α) :
    List (Nat × Option α) :=
  match st.listeners.find? (fun p => p.1 == key) with
  | some p => p.2.map (fun l => (l.lid, v))
  | none => []

/-- Result of `set` / `remove`: returned boolean, new state, listener events. -/
structure SetRes (α : Type) where
  ok : Bool
  st : SMState α
  events : List (Nat × Option α)
deriving Repr, DecidableEq

/-- Result of `get`: returned value, new state, listener events. -/
structure GetRes (α : Type) where
  value : α
  st : SMState α
  events : List (Nat × Option α)
deriving Repr, DecidableEq

/-- The envelope built by `set` (`expires` only when `options.ttl` is truthy). -/
def mkEnvelope (now : Nat) (v : α) (ttl : Option Nat) : Envelope α :=
  { value := v, version := STORAGE_VERSION, timestamp := now,
    expires := match ttl with
               | some t => if t != 0 then some (now + t) else none
               | none => none }

/-- `StorageManager.remove` (storageManager.js:169-179). -/
def SM.remove (st : SMState α) (key : String) : SetRes α :=
  { ok := true,
    st := { st with raw := rawDel st.raw (NS ++ key) },
    events := notifyListeners st key none }

/-- `StorageManager.set` (storageManager.js:97-128).  On `QuotaExceededError`
it purges expired records and retries exactly once with an envelope carrying
no `expires` field; note that the retry's success path returns `true`
WITHOUT calling `notifyListeners`, and the retry's failure path returns
`false` (no exception escapes). -/
def SM.set (oc : Oracle α) (now : Nat) (st : SMState α) (key : String) (v : α)
    (ttl : Option Nat) : SetRes α :=
  let fk := NS ++ key
  let env := mkEnvelope now v ttl
  match oc st.raw fk (.stored env) with
  | .ok =>
      { ok := true,
        st := { st with raw := rawPut st.raw fk (.stored env) },
        events := notifyListeners st key (some v) }
  | .quotaExceeded =>
      let st1 : SMState α := { st with raw := clearExpiredRaw now st.raw }
      let env2 : Envelope α :=
        { value := v, version := STORAGE_VERSION, timestamp := now, expires := none }
      match oc st1.raw fk (.stored env2) with
      | .ok =>
          { ok := true,
            st := { st1 with raw := rawPut st1.raw fk (.stored env2) },
            events := [] }
      | _ => { ok := false, st := st1, events := [] }
  | .otherError => { ok := false, st := st, events := [] }

/-- `StorageManager.get` (storageManager.js:136-162).  An absent key returns
the default; an unparseable record makes `JSON.parse` throw, and the `catch`
returns the default WITHOUT deleting the record; an expired or version-stale
envelope is removed (which notifies listeners with `null`) and the default is
returned. -/
def SM.get (now : Nat) (st : SMState α) (key : String) (dflt : α) : GetRes α :=
  let fk := NS ++ key
  match rawLookup st.raw fk with
  | none => { value := dflt, st := st, events := [] }
  | some .junk => { value := dflt, st := st, events := [] }
  | some (.stored e) =>
      if isExpired now e then
        let r := SM.remove st key
        { value := dflt, st := r.st, events := r.events }
      else if e.version != STORAGE_VERSION then
        let r := SM.remove st key
        { value := dflt, st := r.st, events := r.events }
      else { value := e.value, st := st, events := [] }

/-! ### `CacheManager` (storageManager.js:954-1025)

The cache stores `{data, cachedAt}` objects through the same `StorageManager`;
the store's value type is `Option (CEntry β)` so that the JS `null` default of
`storage.get(key)` (and JS null values generally) is representable. -/

/-- A cache payload `{data, cachedAt}`. -/
structure CEntry (β : Type) where
  data : β
  cachedAt : Nat
deriving Repr, DecidableEq

/-- Result of `CacheManager.get`. -/
structure CMRes (β : Type) where
  data : Option β
  st : SMState (Option (CEntry β))
  events : List (Nat × Option (Option (CEntry β)))
deriving Repr, DecidableEq

/-- `CacheManager.set` (storageManager.js:985-990). -/
def CM.set (oc : Oracle (Option (CEntry β))) (now : Nat)
    (st : SMState (Option (CEntry β))) (key : String) (data : β) (ttl : Nat) :
    SetRes (Option (CEntry β)) :=
  SM.set oc now st ("cache_" ++ key) (some { data := data, cachedAt := now }) (some ttl)

/-- `CacheManager.get` (storageManager.js:965-976): read through the store
(which applies the store's own TTL), then apply the independent
`Date.now() - cached.cachedAt > maxAge` freshness check, evicting on staleness.
(`Date.now()` is never behind `cachedAt` in this single-clock model, matching
the `Nat` truncated subtraction.) -/
def CM.get (now : Nat) (st : SMState (Option (CEntry β))) (key : String)
    (maxAge : Nat) : CMRes β :=
  let r := SM.get now st ("cache_" ++ key) none
  match r.value with
  | none => { data := none, st := r.st, events := r.events }
  | some c =>
      if maxAge < now - c.cachedAt then
        let r2 := SM.remove r.st ("cache_" ++ key)
        { data := none, st := r2.st, events := r.events ++ r2.events }
      else { data := some c.data, st := r.st, events := r.events }

/-! ### `AlertsManager` (storageManager.js:657-792)

Modelled on the alert list read from storage (as with the portfolio, the
`get`/`set` round trip is the identity for a well-formed store).  The inner
`this.update(...)` calls of `checkAlerts` re-read and re-store the list, so the
stored list is threaded through the evaluation loop. -/

/-- An alert record as created by `AlertsManager.add`.  `triggeredAt` and
`updatedAt` appear only after a trigger / update. -/
structure Alert where
  id : String
  coinId : String
  symbol : String
  condition : String
  targetPrice : ℚ
  percentChange : Option ℚ
  note : String
  active : Bool
  triggered : Bool
  createdAt : Nat
  triggeredAt : Option Nat
  updatedAt : Option Nat
deriving Repr, DecidableEq

/-- `AlertsManager.getActive` (storageManager.js:675-677). -/
def getActive (alerts : List Alert) : List Alert :=
  alerts.filter (fun a => a.active)

/-- `AlertsManager.update(alertId, {triggered: true, triggeredAt: now,
active: false})` as invoked from `checkAlerts` (storageManager.js:777 and
711-722); `update` also stamps `updatedAt`. -/
def markTriggered (alerts : List Alert) (aid : String) (now : Nat) : List Alert :=
  match findIndex (fun a => a.id == aid) alerts with
  | some i =>
      match alerts[i]? with
      | some a =>
          alerts.set i { a with triggered := true, triggeredAt := some now,
                                active := false, updatedAt := some now }
      | none => alerts
  | none => alerts

/-- The `isTriggered` condition chain of `checkAlerts`: `above` fires on
`currentPrice >= targetPrice`, `below` on `currentPrice <= targetPrice`,
`percent_change` never fires (it would need a reference price), and any other
condition string falls through to not-triggered. -/
def alertTriggered (a : Alert) (p : ℚ) : Bool :=
  if a.condition == "above" && decide (a.targetPrice ≤ p) then true
  else if a.condition == "below" && decide (p ≤ a.targetPrice) then true
  else if a.condition == "percent_change" then false
  else false

/-- The `for (const alert of alerts)` loop of `checkAlerts`: `evalList` is the
snapshot of active alerts taken before the loop, `stored` the persisted list.
A coin absent from the snapshot — or with a falsy (zero) price — is skipped.
A triggered alert is persisted (via `update`) before the stale copy of the
alert, extended with `currentPrice`, is pushed onto the result. -/
def checkLoop (evalList : List Alert) (stored : List Alert)
    (prices : String → Option ℚ) (now : Nat) : List (Alert × ℚ) × List Alert :=
  match evalList with
  | [] => ([], stored)
  | a :: rest =>
    match prices a.coinId with
    | none => checkLoop rest stored prices now
    | some p =>
      if p = 0 then checkLoop rest stored prices now
      else
        if alertTriggered a p then
          let stored' := markTriggered stored a.id now
          let r := checkLoop rest stored' prices now
          ((a, p) :: r.1, r.2)
        else checkLoop rest stored prices now

/-- `AlertsManager.checkAlerts` (storageManager.js:757-783). -/
def checkAlerts (alerts : List Alert) (prices : String → Option ℚ) (now : Nat) :
    List (Alert × ℚ) × List Alert :=
  checkLoop (getActive alerts) alerts prices now

/-! ### `RecentSearchesManager` (storageManager.js:885-945) -/

/-- A recent-search entry. -/
structure SearchItem where
  id : String
  symbol : String
  name : String
  image : String
  searchedAt : Nat
deriving Repr, DecidableEq

/-- `RecentSearchesManager.add` (storageManager.js:905-926): drop any entry
with the same id, prepend the new entry, trim to `maxItems`. -/
def searchAdd (maxItems : Nat) (now : Nat) (searches : List SearchItem)
    (item : SearchItem) : List SearchItem :=
  let s1 := searches.filter (fun s => !(s.id == item.id))
  let s2 : List SearchItem :=
    { id := item.id, symbol := item.symbol, name := item.name,
      image := item.image, searchedAt := now } :: s1
  if maxItems < s2.length then s2.take maxItems else s2

/-- `RecentSearchesManager.remove` (storageManager.js:933-936). -/
def searchRemove (searches : List SearchItem) (itemId : String) : List SearchItem :=
  searches.filter (fun s => !(s.id == itemId))

/-- `RecentSearchesManager.clear` (storageManager.js:942-944). -/
def searchClear : List SearchItem := []

/-! ### Concrete instances used by counterexamples, scenarios and witnesses -/

/-- A store holding unparseable bytes under logical key `k`. -/
def stJunk : SMState Int :=
  { raw := [("cryptohub_k", Item.junk)], listeners := [] }

/-- A store holding an envelope under `k` that expired at time 10. -/
def stExpired : SMState Int :=
  { raw := [("cryptohub_k",
             Item.stored { value := 42, version := "1.0", timestamp := 1, expires := some 10 })],
    listeners := [] }

/-- An oracle whose medium rejects (quota) exactly the envelopes that carry
expiry metadata — so the first `set` attempt fails and the retry (which strips
the TTL bookkeeping) succeeds. -/
def ocQuotaOnTtl : Oracle Int := fun _ _ it =>
  match it with
  | .stored e => if e.expires.isSome then .quotaExceeded else .ok
  | .junk => .ok

/-- A medium that always reports quota exhaustion. -/
def ocAlwaysQuota : Oracle Int := fun _ _ _ => .quotaExceeded

/-- A medium that always accepts. -/
def ocAlwaysOk (α : Type) : Oracle α := fun _ _ _ => .ok

/-- A store with one listener (id 1) and one throwing listener (id 2) on `k`. -/
def stListen : SMState Int :=
  { raw := [],
    listeners := [("k", [{ lid := 1, throws := false }, { lid := 2, throws := true }])] }

/-- The C7 scenario alert: `price-above` with target 50000, armed. -/
def alertC7 : Alert :=
  { id := "a1", coinId := "bitcoin", symbol := "BTC", condition := "above",
    targetPrice := 50000, percentChange := none, note := "", active := true,
    triggered := false, createdAt := 0, triggeredAt := none, updatedAt := none }

/-- The C7 scenario alert after triggering at time 7. -/
def alertC7Post : Alert :=
  { alertC7 with active := false, triggered := true,
                 triggeredAt := some 7, updatedAt := some 7 }

/-- The C7 scenario snapshot: bitcoin at 50001. -/
def pricesC7 : String → Option ℚ :=
  fun c => if c == "bitcoin" then some 50001 else none

/-- A duplicated recent-searches list (a prior state the claim quantifies
over, though not one the manager itself produces). -/
def sDup : SearchItem := { id := "a", symbol := "A", name := "Acoin", image := "", searchedAt := 0 }

/-- A fresh search item with a distinct id. -/
def sNew : SearchItem := { id := "b", symbol := "B", name := "Bcoin", image := "", searchedAt := 0 }

/-- A holding of 2 units at average price 10. -/
def holdW : Holding :=
  { coinId := "btc", symbol := "BTC", name := "Bitcoin", amount := 2, averagePrice := 10,
    createdAt := 0, updatedAt := 0 }

/-- A sell of 1 unit at price 99 against `holdW`. -/
def txSellW : Transaction :=
  { coinId := "btc", symbol := "BTC", name := "Bitcoin", type := "sell", price := 99, amount := 1 }

/-- An empty store for the cache scenario. -/
def stEmptyC : SMState (Option (CEntry Int)) := { raw := [], listeners := [] }

/-! ## Theorems -/

/-- C1: the claim asserts the incremental holdings projection
(`updateHoldings` applied transaction by transaction) and the full rebuild
(`recalculateHoldings`) always agree, and that a sell never alters
`averagePrice` under either path.  Evaluating both paths on the transaction
log "buy 2 @ 10, then sell 1 @ 100" refutes this: the incremental path keeps
`averagePrice = 10`, while the rebuild subtracts the sale's proceeds from the
cost basis and yields `averagePrice = -80`. -/
theorem portfolio_paths_disagree :
    (replayIncremental txsC1 0).map (fun h => (h.amount, h.averagePrice)) = [(1, 10)] ∧
    (recalculateHoldings txsC1 0).map (fun h => (h.amount, h.averagePrice)) = [(1, -80)] := by
  norm_num [replayIncremental, txsC1, updateHoldings, findIndex, applyTx, recalculateHoldings,
    (by decide : ¬ (("sell" : String) = "buy"))]

/-- C3: the claim asserts every `calculateRSI` output is in `[0,100]`, and is
exactly 100 whenever the average loss is 0 — including the first output value
when both averages are 0 (a constant series).  Evaluating the code on the
constant series `[5, 5]` with `period = 1` refutes this: the unguarded seed
formula computes `avgGain / avgLoss = 0 / 0 = NaN`, which propagates, so the
first (and only) output value is `NaN`, not 100 and not in `[0,100]`. -/
theorem rsi_nan_on_constant_series :
    calculateRSI [5, 5] 1 = [JsNum.nan] ∧ JsNum.nan ≠ JsNum.num 100 := by
  constructor
  · norm_num [calculateRSI, rsiValue, jdiv, jadd, jsub, wilderLoop]
  · decide

theorem findIndex_pred (p : α → Bool) (l : List α) (i : Nat) (x : α)
    (hfind : findIndex p l = some i) (hget : l[i]? = some x) : p x = true := by
  induction l generalizing i with
  | nil => simp [findIndex] at hfind
  | cons a t ih =>
    by_cases hpa : p a = true
    · simp [findIndex, hpa] at hfind
      subst hfind
      simp at hget
      subst hget
      exact hpa
    · simp [findIndex, hpa] at hfind
      obtain ⟨j, hj, rfl⟩ := hfind
      simp at hget
      exact ih j hj hget

theorem updateHoldings_sell_eq (hs : List Holding) (tx : Transaction) (now i : Nat)
    (existing : Holding)
    (htype : tx.type = "sell")
    (hfind : findIndex (fun h => h.coinId == tx.coinId) hs = some i)
    (hget : hs[i]? = some existing) :
    updateHoldings hs tx now =
      if existing.amount - tx.amount ≤ 0 then hs.eraseIdx i
      else hs.set i { existing with amount := existing.amount - tx.amount, updatedAt := now } := by
  simp only [updateHoldings, htype, hfind, hget,
    (by decide : (("sell" : String) == "buy") = false),
    (by decide : (("sell" : String) == "sell") = true)]
  simp


theorem eraseIdx_coin_ne (hs : List Holding) (i : Nat) (h : Holding)
    (hget : hs[i]? = some h) (hnd : (hs.map Holding.coinId).Nodup) :
    ∀ x ∈ hs.eraseIdx i, x.coinId ≠ h.coinId := by
  induction hs generalizing i with
  | nil => simp at hget
  | cons a t ih =>
    simp only [List.map_cons, List.nodup_cons] at hnd
    obtain ⟨hna, hndt⟩ := hnd
    cases i with
    | zero =>
      simp at hget
      subst hget
      intro x hx hxc
      exact hna (hxc ▸ List.mem_map_of_mem Holding.coinId (by simpa [List.eraseIdx] using hx))
    | succ j =>
      simp at hget
      intro x hx hxc
      simp [List.eraseIdx] at hx
      rcases hx with rfl | hx
      · have : h ∈ t := by
          have := List.getElem?_eq_some_iff.mp hget
          obtain ⟨hlt, heq⟩ := this
          exact heq ▸ List.getElem_mem _
        exact hna (hxc ▸ List.mem_map_of_mem Holding.coinId this)
      · exact ih j hget hndt x hx hxc


/-- C5: applying a sell transaction (the path taken by `addTransaction` via
`updateHoldings`) to a list containing a holding for the coin decreases that
holding's amount by exactly the fill amount while leaving its `averagePrice`
unchanged (the record is replaced with only `amount` and `updatedAt` changed);
if the resulting amount is ≤ 0 the holding is removed from the list (and, with
distinct coin ids, no holding for that coin remains), so this path never
persists a zero- or negative-amount holding. -/
theorem sell_decrements_holding (hs : List Holding) (tx : Transaction) (now i : Nat)
    (existing : Holding)
    (htype : tx.type = "sell")
    (hfind : findIndex (fun h => h.coinId == tx.coinId) hs = some i)
    (hget : hs[i]? = some existing) :
    (0 < existing.amount - tx.amount →
      updateHoldings hs tx now =
        hs.set i { existing with amount := existing.amount - tx.amount, updatedAt := now }) ∧
    (existing.amount - tx.amount ≤ 0 →
      updateHoldings hs tx now = hs.eraseIdx i) ∧
    ((∀ x ∈ hs, 0 < x.amount) → ∀ x ∈ updateHoldings hs tx now, 0 < x.amount) ∧
    ((hs.map Holding.coinId).Nodup → existing.amount - tx.amount ≤ 0 →
      ∀ x ∈ updateHoldings hs tx now, x.coinId ≠ tx.coinId) := by
  have heq := updateHoldings_sell_eq hs tx now i existing htype hfind hget
  have hpc : existing.coinId = tx.coinId := by
    have := findIndex_pred _ hs i existing hfind hget
    simpa using this
  refine ⟨?_, ?_, ?_, ?_⟩
  · intro hpos
    rw [heq, if_neg (by linarith)]
  · intro hle
    rw [heq, if_pos hle]
  · intro hall x hx
    rw [heq] at hx
    by_cases hle : existing.amount - tx.amount ≤ 0
    · rw [if_pos hle] at hx
      exact hall x ((List.eraseIdx_sublist hs i).mem hx)
    · rw [if_neg hle] at hx
      rcases List.mem_or_eq_of_mem_set hx with hmem | rfl
      · exact hall x hmem
      · simpa using lt_of_not_le hle
  · intro hnd hle x hx
    rw [heq, if_pos hle] at hx
    have := eraseIdx_coin_ne hs i existing hget hnd x hx
    rwa [hpc] at this

theorem sell_decrements_holding_witness :
    updateHoldings [holdW] txSellW 5 = [{ holdW with amount := 1, updatedAt := 5 }] := by
  have h := sell_decrements_holding [holdW] txSellW 5 0 holdW rfl (by decide) rfl
  rw [h.1 (by norm_num [holdW, txSellW])]
  norm_num [holdW, txSellW]


theorem updateHoldings_buy_single (h : Holding) (tx : Transaction) (now : Nat)
    (htype : tx.type = "buy") (hc : h.coinId = tx.coinId) :
    updateHoldings [h] tx now =
      [{ h with
          amount := h.amount + tx.amount,
          averagePrice :=
            (h.averagePrice * h.amount + tx.price * tx.amount) / (h.amount + tx.amount),
          updatedAt := now }] := by
  simp only [updateHoldings, htype, (by decide : (("buy" : String) == "buy") = true)]
  simp [findIndex, hc]

theorem buy_fold_single (c sym nm : String) (now : Nat) :
    ∀ (fills : List (ℚ × ℚ)) (h : Holding), h.coinId = c → 0 < h.amount →
      (∀ pa ∈ fills, 0 < pa.2) →
      ∃ u : Holding,
        (buysOf c sym nm fills).foldl (fun hs tx => updateHoldings hs tx now) [h] = [u] ∧
        u.coinId = c ∧ 0 < u.amount ∧
        u.amount = h.amount + (fills.map Prod.snd).sum ∧
        u.averagePrice * u.amount =
          h.averagePrice * h.amount + (fills.map (fun pa => pa.1 * pa.2)).sum := by
  intro fills
  induction fills with
  | nil =>
    intro h hc hA _
    exact ⟨h, by simp [buysOf], hc, hA, by simp, by simp⟩
  | cons pa rest ih =>
    intro h hc hA hpos
    have hpa : 0 < pa.2 := hpos pa (by simp)
    have hstep := updateHoldings_buy_single h
      { coinId := c, symbol := sym, name := nm, type := "buy", price := pa.1, amount := pa.2 }
      now rfl hc
    have hA1 : 0 < h.amount + pa.2 := by linarith
    obtain ⟨u, hu, huc, huA, huamt, huavg⟩ :=
      ih { h with
            amount := h.amount + pa.2,
            averagePrice := (h.averagePrice * h.amount + pa.1 * pa.2) / (h.amount + pa.2),
            updatedAt := now }
        hc hA1 (fun q hq => hpos q (by simp [hq]))
    refine ⟨u, ?_, huc, huA, ?_, ?_⟩
    · simpa [buysOf, hstep] using hu
    · simp at huamt
      rw [huamt]
      simp
      ring
    · simp at huavg
      rw [huavg, div_mul_cancel₀ _ (ne_of_gt hA1)]
      simp
      ring


/-- C6: for a nonempty sequence of buy fills with positive amounts on one
coin, the incremental path (each buy folded in via `updateHoldings`, which
uses `averagePrice' = (oldAvg*oldAmt + price*amt)/(oldAmt+amt)`) produces a
single holding whose `averagePrice` is exactly the quantity-weighted mean of
all fill prices, and the result is invariant under every permutation of the
fill sequence. -/
theorem buy_average_weighted_mean (c sym nm : String) (now : Nat) (fills : List (ℚ × ℚ))
    (hne : fills ≠ []) (hpos : ∀ pa ∈ fills, 0 < pa.2) :
    ((replayIncremental (buysOf c sym nm fills) now).map (fun h => (h.amount, h.averagePrice)) =
      [((fills.map Prod.snd).sum,
        (fills.map (fun pa => pa.1 * pa.2)).sum / (fills.map Prod.snd).sum)]) ∧
    ∀ fills' : List (ℚ × ℚ), fills.Perm fills' →
      (replayIncremental (buysOf c sym nm fills') now).map (fun h => (h.amount, h.averagePrice)) =
      (replayIncremental (buysOf c sym nm fills) now).map (fun h => (h.amount, h.averagePrice)) := by
  have main : ∀ (g : List (ℚ × ℚ)), g ≠ [] → (∀ pa ∈ g, 0 < pa.2) →
      (replayIncremental (buysOf c sym nm g) now).map (fun h => (h.amount, h.averagePrice)) =
        [((g.map Prod.snd).sum,
          (g.map (fun pa => pa.1 * pa.2)).sum / (g.map Prod.snd).sum)] := by
    intro g hg hp
    obtain ⟨pa, rest, rfl⟩ := List.exists_cons_of_ne_nil hg
    have h0 : updateHoldings []
        { coinId := c, symbol := sym, name := nm, type := "buy", price := pa.1, amount := pa.2 }
        now =
        [{ coinId := c, symbol := sym, name := nm, amount := pa.2, averagePrice := pa.1,
           createdAt := now, updatedAt := now }] := by
      simp [updateHoldings, findIndex]
    obtain ⟨u, hu, huc, huA, huamt, huavg⟩ :=
      buy_fold_single c sym nm now rest
        { coinId := c, symbol := sym, name := nm, amount := pa.2, averagePrice := pa.1,
          createdAt := now, updatedAt := now }
        rfl (hp pa (by simp)) (fun q hq => hp q (by simp [hq]))
    have hfold : replayIncremental (buysOf c sym nm (pa :: rest)) now = [u] := by
      simpa [replayIncremental, buysOf, h0] using hu
    simp only at huamt huavg
    have hA : (0:ℚ) < pa.2 + (rest.map Prod.snd).sum := huamt ▸ huA
    rw [hfold]
    simp only [List.map_cons, List.sum_cons, List.map_map]
    have havg : u.averagePrice =
        (pa.1 * pa.2 + (rest.map (fun pa => pa.1 * pa.2)).sum) /
          (pa.2 + (rest.map Prod.snd).sum) := by
      rw [eq_div_iff (ne_of_gt hA), ← huamt, huavg]
    simp [huamt, havg]
  refine ⟨main fills hne hpos, ?_⟩
  intro fills' hperm
  have hne' : fills' ≠ [] := by
    intro hnil
    exact hne (List.Perm.eq_nil (hnil ▸ hperm))
  have hpos' : ∀ pa ∈ fills', 0 < pa.2 := fun q hq => hpos q (hperm.mem_iff.mpr hq)
  rw [main fills' hne' hpos', main fills hne hpos,
    List.Perm.sum_eq (hperm.map Prod.snd),
    List.Perm.sum_eq (hperm.map (fun pa => pa.1 * pa.2))]

theorem buy_average_weighted_mean_witness :
    (replayIncremental (buysOf "btc" "BTC" "Bitcoin" [((10000 : ℚ), (1 : ℚ)), (20000, 1)]) 3).map
      (fun h => (h.amount, h.averagePrice)) = [(2, 15000)] := by
  have h := buy_average_weighted_mean "btc" "BTC" "Bitcoin" 3
    [((10000 : ℚ), (1 : ℚ)), (20000, 1)] (by simp) (by norm_num)
  rw [h.1]
  norm_num


theorem rawLookup_rawPut (d : List (String × Item α)) (k : String) (it : Item α) :
    rawLookup (rawPut d k it) k = some it := by
  induction d with
  | nil => simp [rawLookup, rawPut, List.find?]
  | cons p rest ih =>
    by_cases hp : (p.1 == k) = true
    · simp [rawPut, hp, rawLookup, List.find?]
    · rw [rawPut, if_neg (by simp [hp])]
      rw [rawLookup] at ih ⊢
      rw [List.find?_cons_of_neg _ (by simp [hp])]
      exact ih

theorem rawLookup_rawDel (d : List (String × Item α)) (k : String) :
    rawLookup (rawDel d k) k = none := by
  have h1 : (rawDel d k).find? (fun p => p.1 == k) = none := by
    apply List.find?_eq_none.mpr
    intro x hx
    have := List.of_mem_filter hx
    simpa using this
  rw [rawLookup, h1]
  rfl

theorem rawLookup_eq_none_of_not_mem (d : List (String × Item α)) (k : String)
    (h : k ∉ d.map Prod.fst) : rawLookup d k = none := by
  have h1 : d.find? (fun p => p.1 == k) = none := by
    apply List.find?_eq_none.mpr
    intro x hx hbeq
    have hxk : x.1 = k := by simpa using hbeq
    exact h (hxk ▸ List.mem_map_of_mem Prod.fst hx)
  rw [rawLookup, h1]
  rfl

theorem listPre_append (as bs : List Char) : listPre as (as ++ bs) = true := by
  induction as with
  | nil => simp [listPre]
  | cons a t ih => simp [listPre, ih]

theorem hasNS_NS_append (k : String) : hasNS (NS ++ k) = true := by
  have h : (NS ++ k).data = NS.data ++ k.data := String.data_append NS k
  rw [hasNS, h]
  exact listPre_append _ _

theorem rawLookup_cons (p : String × Item α) (rest : List (String × Item α)) (k : String) :
    rawLookup (p :: rest) k = if p.1 == k then some p.2 else rawLookup rest k := by
  by_cases hp : (p.1 == k) = true <;> simp [rawLookup, List.find?, hp]

theorem rawLookup_filter_none (q : String × Item α → Bool) (rest : List (String × Item α))
    (k : String) (hk : k ∉ rest.map Prod.fst) : rawLookup (rest.filter q) k = none :=
  rawLookup_eq_none_of_not_mem _ _
    (fun hmem => hk (((List.filter_sublist rest).map Prod.fst).subset hmem))

theorem rawLookup_clearExpired (now : Nat) (d : List (String × Item α)) (k : String)
    (hnd : (d.map Prod.fst).Nodup) (hk : hasNS k = true) :
    rawLookup (clearExpiredRaw now d) k =
      match rawLookup d k with
      | none => none
      | some .junk => none
      | some (.stored e) => if isExpired now e then none else some (.stored e) := by
  induction d with
  | nil => simp [clearExpiredRaw, rawLookup]
  | cons p rest ih =>
    simp only [List.map_cons, List.nodup_cons] at hnd
    obtain ⟨hpn, hndr⟩ := hnd
    by_cases hp : (p.1 == k) = true
    · have hpk : p.1 = k := by simpa using hp
      have hrestnone : ∀ q : String × Item α → Bool,
          rawLookup (rest.filter q) k = none :=
        fun q => rawLookup_filter_none q rest k (hpk ▸ hpn)
      rw [rawLookup_cons, if_pos hp]
      cases hit : p.2 with
      | junk =>
        rw [clearExpiredRaw, List.filter_cons, if_neg (by simp [hpk, hk, hit])]
        exact hrestnone _
      | stored e =>
        by_cases hex : isExpired now e = true
        · rw [clearExpiredRaw, List.filter_cons, if_neg (by simp [hpk, hk, hit, hex])]
          simp only [hex, if_true]
          exact hrestnone _
        · rw [clearExpiredRaw, List.filter_cons,
            if_pos (by simp [hpk, hk, hit, hex])]
          rw [rawLookup_cons, if_pos hp, hit]
          simp [hex]
    · rw [rawLookup_cons, if_neg hp]
      rw [clearExpiredRaw, List.filter_cons]
      by_cases hkeep : (if hasNS p.1 = true then
          match p.2 with
          | Item.junk => false
          | Item.stored e => !isExpired now e
        else true) = true
      · rw [if_pos hkeep, rawLookup_cons, if_neg hp]
        exact ih hndr
      · rw [if_neg hkeep]
        exact ih hndr

/-- C2 counterexample: on a stored record that fails to parse, `get` returns
the default value but does NOT delete the offending record — the state is
unchanged and the junk record is still present — contradicting the claim that
a parse failure deletes the record as a side effect. -/
theorem get_junk_not_deleted_cex :
    (SM.get 0 stJunk "k" 7).value = 7 ∧
    (SM.get 0 stJunk "k" 7).st = stJunk ∧
    rawLookup stJunk.raw (NS ++ "k") = some Item.junk := by
  decide

/-- C2 (amended): `get` never surfaces an error; an absent key returns the
default; an expired envelope, or a non-expired envelope whose schema version
differs from the current one, returns the default AND deletes the record; but
an envelope that fails to parse returns the default while leaving the record
in place (it is only purged later by `clearExpired`); a valid, current,
unexpired envelope returns its value with no side effect. -/
theorem get_invalid_sweep_amended {α : Type} (now : Nat) (st : SMState α) (key : String)
    (d : α) :
    (rawLookup st.raw (NS ++ key) = none →
      SM.get now st key d = { value := d, st := st, events := [] }) ∧
    (rawLookup st.raw (NS ++ key) = some Item.junk →
      SM.get now st key d = { value := d, st := st, events := [] }) ∧
    (∀ e : Envelope α, rawLookup st.raw (NS ++ key) = some (.stored e) →
      isExpired now e = true →
      (SM.get now st key d).value = d ∧
      rawLookup (SM.get now st key d).st.raw (NS ++ key) = none) ∧
    (∀ e : Envelope α, rawLookup st.raw (NS ++ key) = some (.stored e) →
      isExpired now e = false → e.version ≠ STORAGE_VERSION →
      (SM.get now st key d).value = d ∧
      rawLookup (SM.get now st key d).st.raw (NS ++ key) = none) ∧
    (∀ e : Envelope α, rawLookup st.raw (NS ++ key) = some (.stored e) →
      isExpired now e = false → e.version = STORAGE_VERSION →
      SM.get now st key d = { value := e.value, st := st, events := [] }) := by
  refine ⟨?_, ?_, ?_, ?_, ?_⟩
  · intro h
    simp [SM.get, h]
  · intro h
    simp [SM.get, h]
  · intro e h hex
    simp [SM.get, h, hex, SM.remove, rawLookup_rawDel]
  · intro e h hex hv
    simp [SM.get, h, hex, SM.remove, rawLookup_rawDel, bne, hv]
  · intro e h hex hv
    simp [SM.get, h, hex, bne, hv]

theorem get_invalid_sweep_amended_witness :
    (SM.get 20 stExpired "k" 7).value = 7 ∧
    rawLookup (SM.get 20 stExpired "k" 7).st.raw (NS ++ "k") = none := by
  have h := get_invalid_sweep_amended 20 stExpired "k" (7 : Int)
  exact h.2.2.1 { value := 42, version := "1.0", timestamp := 1, expires := some 10 }
    (by decide) (by decide)

/-- C4 counterexample: with a medium that rejects the first attempt (quota)
and accepts the retry, `set` returns `true` yet invokes no listener — the
events list is empty even though two listeners are registered for the key —
contradicting the claim that every successful `set` notifies listeners,
including a set that succeeds only on the quota-exhaustion retry. -/
theorem set_retry_no_notify_cex :
    (SM.set ocQuotaOnTtl 0 stListen "k" 5 (some 1000)).ok = true ∧
    (SM.set ocQuotaOnTtl 0 stListen "k" 5 (some 1000)).events = [] ∧
    notifyListeners stListen "k" (some 5) = [(1, some 5), (2, some 5)] := by
  decide

/-- C4 (amended): after a `set` that succeeds on its first attempt, and after
every `remove`, all listeners subscribed to the key are invoked synchronously
before the operation returns — in registration order, with the new value for a
set and `null` for a removal, and a throwing listener is caught without
aborting the operation or suppressing the remaining listeners (every
registered listener appears in the event list regardless of its `throws`
flag).  A set that succeeds only on the quota-exhaustion retry, however, does
not notify. -/
theorem set_remove_notify_amended {α : Type} (oc : Oracle α) (now : Nat) (st : SMState α)
    (key : String) (v : α) (ttl : Option Nat) :
    (oc st.raw (NS ++ key) (.stored (mkEnvelope now v ttl)) = .ok →
      (SM.set oc now st key v ttl).ok = true ∧
      (SM.set oc now st key v ttl).events = notifyListeners st key (some v)) ∧
    ((SM.remove st key).ok = true ∧
      (SM.remove st key).events = notifyListeners st key none) ∧
    (∀ ls : String × List Listener, st.listeners.find? (fun p => p.1 == key) = some ls →
      notifyListeners st key (some v) = ls.2.map (fun l => (l.lid, some v))) := by
  refine ⟨?_, ⟨rfl, rfl⟩, ?_⟩
  · intro h
    simp [SM.set, h]
  · intro ls h
    simp [notifyListeners, h]

theorem set_remove_notify_amended_witness :
    (SM.set (ocAlwaysOk Int) 0 stListen "k" 5 none).ok = true ∧
    (SM.set (ocAlwaysOk Int) 0 stListen "k" 5 none).events = [(1, some 5), (2, some 5)] := by
  have h := (set_remove_notify_amended (ocAlwaysOk Int) 0 stListen "k" 5 none).1 rfl
  refine ⟨h.1, ?_⟩
  rw [h.2]
  decide

theorem get_value_clearExpired {α : Type} (now : Nat) (st : SMState α) (key : String)
    (d : α) (hnd : (st.raw.map Prod.fst).Nodup) :
    (SM.get now { st with raw := clearExpiredRaw now st.raw } key d).value =
      (SM.get now st key d).value := by
  have hlook := rawLookup_clearExpired now st.raw (NS ++ key) hnd (hasNS_NS_append key)
  cases hit : rawLookup st.raw (NS ++ key) with
  | none =>
    rw [hit] at hlook
    simp [SM.get, hlook, hit]
  | some it =>
    cases it with
    | junk =>
      rw [hit] at hlook
      simp [SM.get, hlook, hit]
    | stored e =>
      rw [hit] at hlook
      by_cases hex : isExpired now e = true
      · simp only [hex, if_true] at hlook
        simp [SM.get, hlook, hit, hex]
      · simp only [hex, if_false, Bool.false_eq_true] at hlook
        simp only [Bool.not_eq_true] at hex
        simp [SM.get, hlook, hit, hex]
        by_cases hv : e.version = STORAGE_VERSION <;> simp [hv, SM.remove]

/-- C8: when the medium reports quota exhaustion on the first write, `set`
purges all expired (and unparseable) records across the whole namespace and
retries exactly once with an envelope carrying no expiry metadata; if the
retry succeeds the no-expiry envelope is stored; if the retry also fails,
`set` returns `false` (no exception escapes) and the value observable under
that key via `get` is unchanged from before the `set`. -/
theorem set_quota_recovery {α : Type} (oc : Oracle α) (now : Nat) (st : SMState α)
    (key : String) (v : α) (ttl : Option Nat) (d : α)
    (hq : oc st.raw (NS ++ key) (.stored (mkEnvelope now v ttl)) = .quotaExceeded)
    (hnd : (st.raw.map Prod.fst).Nodup) :
    (oc (clearExpiredRaw now st.raw) (NS ++ key)
        (.stored { value := v, version := STORAGE_VERSION, timestamp := now,
                   expires := none }) = .ok →
      (SM.set oc now st key v ttl).ok = true ∧
      (SM.set oc now st key v ttl).st.raw =
        rawPut (clearExpiredRaw now st.raw) (NS ++ key)
          (.stored { value := v, version := STORAGE_VERSION, timestamp := now,
                     expires := none }) ∧
      rawLookup (SM.set oc now st key v ttl).st.raw (NS ++ key) =
        some (.stored { value := v, version := STORAGE_VERSION, timestamp := now,
                        expires := none })) ∧
    (oc (clearExpiredRaw now st.raw) (NS ++ key)
        (.stored { value := v, version := STORAGE_VERSION, timestamp := now,
                   expires := none }) ≠ .ok →
      (SM.set oc now st key v ttl).ok = false ∧
      (SM.set oc now st key v ttl).st.raw = clearExpiredRaw now st.raw ∧
      (SM.get now (SM.set oc now st key v ttl).st key d).value =
        (SM.get now st key d).value) := by
  constructor
  · intro hok
    simp [SM.set, hq, hok, rawLookup_rawPut]
  · intro hne
    cases ho : oc (clearExpiredRaw now st.raw) (NS ++ key)
        (.stored { value := v, version := STORAGE_VERSION, timestamp := now,
                   expires := none }) with
    | ok => exact absurd ho hne
    | quotaExceeded =>
      refine ⟨by simp [SM.set, hq, ho], by simp [SM.set, hq, ho], ?_⟩
      have hst : (SM.set oc now st key v ttl).st =
          { st with raw := clearExpiredRaw now st.raw } := by
        simp [SM.set, hq, ho]
      rw [hst]
      exact get_value_clearExpired now st key d hnd
    | otherError =>
      refine ⟨by simp [SM.set, hq, ho], by simp [SM.set, hq, ho], ?_⟩
      have hst : (SM.set oc now st key v ttl).st =
          { st with raw := clearExpiredRaw now st.raw } := by
        simp [SM.set, hq, ho]
      rw [hst]
      exact get_value_clearExpired now st key d hnd

theorem set_quota_recovery_witness :
    (SM.set ocAlwaysQuota 3 stExpired "k" 5 (some 7)).ok = false ∧
    (SM.get 3 (SM.set ocAlwaysQuota 3 stExpired "k" 5 (some 7)).st "k" 9).value =
      (SM.get 3 stExpired "k" 9).value := by
  have h := (set_quota_recovery ocAlwaysQuota 3 stExpired "k" 5 (some 7) 9
    (by decide) (by decide)).2 (by decide)
  exact ⟨h.1, h.2.2⟩

/-- C9: a cache entry written by `CacheManager.set` at time `t0` with a
nonzero `ttl` and read back by `CacheManager.get`: after more than `ttl`
elapsed ms the read returns absence and the underlying record is purged; a
read within the store TTL but past the independent `now - cachedAt > maxAge`
freshness window likewise evicts and returns absence; a fresh read (within
both windows) returns the originally stored data unchanged, with no state
change.  With `ttl = 1000`, a read at 1001 ms is absent-and-purged and a read
at 999 ms returns the data (see the witness). -/
theorem cache_ttl_eviction {β : Type} (oc : Oracle (Option (CEntry β)))
    (st : SMState (Option (CEntry β))) (key : String) (data : β)
    (t0 ttl maxAge now : Nat)
    (hok : oc st.raw (NS ++ ("cache_" ++ key))
      (.stored (mkEnvelope t0 (some { data := data, cachedAt := t0 }) (some ttl))) = .ok)
    (httl : ttl ≠ 0) :
    (t0 + ttl < now →
      (CM.get now (CM.set oc t0 st key data ttl).st key maxAge).data = none ∧
      rawLookup (CM.get now (CM.set oc t0 st key data ttl).st key maxAge).st.raw
        (NS ++ ("cache_" ++ key)) = none) ∧
    (now ≤ t0 + ttl → maxAge < now - t0 →
      (CM.get now (CM.set oc t0 st key data ttl).st key maxAge).data = none ∧
      rawLookup (CM.get now (CM.set oc t0 st key data ttl).st key maxAge).st.raw
        (NS ++ ("cache_" ++ key)) = none) ∧
    (now ≤ t0 + ttl → now - t0 ≤ maxAge →
      (CM.get now (CM.set oc t0 st key data ttl).st key maxAge).data = some data ∧
      (CM.get now (CM.set oc t0 st key data ttl).st key maxAge).st =
        (CM.set oc t0 st key data ttl).st) := by
  have hst : (CM.set oc t0 st key data ttl).st =
      { st with raw := (rawPut st.raw (NS ++ ("cache_" ++ key))
          (.stored (mkEnvelope t0 (some { data := data, cachedAt := t0 }) (some ttl)))) } := by
    simp [CM.set, SM.set, hok]
  have henv : mkEnvelope t0 (some ({ data := data, cachedAt := t0 } : CEntry β)) (some ttl) =
      { value := some ({ data := data, cachedAt := t0 } : CEntry β),
        version := STORAGE_VERSION,
        timestamp := t0, expires := some (t0 + ttl) } := by
    simp [mkEnvelope, bne_iff_ne, httl]
  have hlook : rawLookup (CM.set oc t0 st key data ttl).st.raw (NS ++ ("cache_" ++ key)) =
      some (.stored { value := some { data := data, cachedAt := t0 },
                      version := STORAGE_VERSION, timestamp := t0,
                      expires := some (t0 + ttl) }) := by
    rw [hst]
    rw [← henv]
    exact rawLookup_rawPut _ _ _
  have h0 : t0 + ttl ≠ 0 := by omega
  refine ⟨?_, ?_, ?_⟩
  · intro h1
    have hex : isExpired now
        ({ value := some { data := data, cachedAt := t0 }, version := STORAGE_VERSION,
           timestamp := t0, expires := some (t0 + ttl) } : Envelope (Option (CEntry β))) = true := by
      simp [isExpired, bne_iff_ne, h0, h1]
    simp [CM.get, SM.get, hlook, hex, SM.remove, rawLookup_rawDel]
  · intro h1 h2
    have hex : isExpired now
        ({ value := some { data := data, cachedAt := t0 }, version := STORAGE_VERSION,
           timestamp := t0, expires := some (t0 + ttl) } : Envelope (Option (CEntry β))) = false := by
      simp [isExpired, bne_iff_ne, h0]
      omega
    simp [CM.get, SM.get, hlook, hex, h2, SM.remove, rawLookup_rawDel]
  · intro h1 h2
    have hex : isExpired now
        ({ value := some { data := data, cachedAt := t0 }, version := STORAGE_VERSION,
           timestamp := t0, expires := some (t0 + ttl) } : Envelope (Option (CEntry β))) = false := by
      simp [isExpired, bne_iff_ne, h0]
      omega
    have h2' : ¬ (maxAge < now - t0) := by omega
    simp [CM.get, SM.get, hlook, hex, h2']

theorem cache_ttl_eviction_witness :
    ((CM.get 1001 (CM.set (ocAlwaysOk (Option (CEntry Int))) 0
        stEmptyC "price" 42 1000).st "price" 300000).data = none ∧
      rawLookup (CM.get 1001 (CM.set (ocAlwaysOk (Option (CEntry Int))) 0
        stEmptyC "price" 42 1000).st "price" 300000).st.raw
        (NS ++ ("cache_" ++ "price")) = none) ∧
    ((CM.get 999 (CM.set (ocAlwaysOk (Option (CEntry Int))) 0
        stEmptyC "price" 42 1000).st "price" 300000).data = some 42) := by
  have h := cache_ttl_eviction (ocAlwaysOk (Option (CEntry Int)))
    stEmptyC "price" (42 : Int) 0 1000 300000 1001 rfl (by decide)
  have h2 := cache_ttl_eviction (ocAlwaysOk (Option (CEntry Int)))
    stEmptyC "price" (42 : Int) 0 1000 300000 999 rfl (by decide)
  exact ⟨h.1 (by omega), (h2.2.2 (by omega) (by omega)).1⟩

theorem checkLoop_triggered_src (prices : String → Option ℚ) (now : Nat) :
    ∀ (evalList stored : List Alert), ∀ e ∈ (checkLoop evalList stored prices now).1,
      e.1 ∈ evalList ∧ ∃ p, prices e.1.coinId = some p ∧ p ≠ 0 ∧ e.2 = p := by
  intro evalList
  induction evalList with
  | nil =>
    intro stored e he
    simp [checkLoop] at he
  | cons a rest ih =>
    intro stored e he
    cases hp : prices a.coinId with
    | none =>
      simp only [checkLoop, hp] at he
      exact (ih stored e he).imp (List.mem_cons_of_mem a) id
    | some p =>
      by_cases hz : p = 0
      · simp only [checkLoop, hp] at he
        rw [if_pos hz] at he
        exact (ih stored e he).imp (List.mem_cons_of_mem a) id
      · by_cases ht : alertTriggered a p = true
        · simp only [checkLoop, hp] at he
          rw [if_neg hz, if_pos ht] at he
          rcases List.mem_cons.mp he with rfl | he2
          · exact ⟨List.mem_cons_self a rest, p, hp, hz, rfl⟩
          · exact (ih (markTriggered stored a.id now) e he2).imp (List.mem_cons_of_mem a) id
        · simp only [checkLoop, hp] at he
          rw [if_neg hz, if_neg ht] at he
          exact (ih stored e he).imp (List.mem_cons_of_mem a) id

/-- C7: `checkAlerts` evaluates only alerts with `active = true` and skips any
alert whose coin is absent from the price snapshot (every triggered entry
comes from an active alert with a present, nonzero snapshot price); the
`above`/50000 alert fed a snapshot price of 50001 transitions to
`active = false, triggered = true`, is persisted in that state, appears
exactly once in the returned triggered sequence, and all subsequent
evaluations of the persisted state — under any snapshot and time — return no
triggers and leave the inactive alert untouched. -/
theorem alert_one_shot :
    (∀ (alerts : List Alert) (prices : String → Option ℚ) (now : Nat),
      ∀ e ∈ (checkAlerts alerts prices now).1,
        e.1.active = true ∧ ∃ p, prices e.1.coinId = some p ∧ p ≠ 0 ∧ e.2 = p) ∧
    (checkAlerts [alertC7] pricesC7 7 = ([(alertC7, 50001)], [alertC7Post])) ∧
    (∀ (prices2 : String → Option ℚ) (now2 : Nat),
      checkAlerts [alertC7Post] prices2 now2 = ([], [alertC7Post])) := by
  refine ⟨?_, ?_, ?_⟩
  · intro alerts prices now e he
    have h := checkLoop_triggered_src prices now (getActive alerts) alerts e he
    exact ⟨(List.mem_filter.mp h.1).2, h.2⟩
  · norm_num [checkAlerts, getActive, checkLoop, alertTriggered, alertC7, pricesC7,
      markTriggered, findIndex, alertC7Post]
  · intro prices2 now2
    simp [checkAlerts, getActive, checkLoop, alertC7Post, alertC7]

theorem alert_one_shot_witness :
    alertC7.active = true ∧
    ∃ p, pricesC7 alertC7.coinId = some p ∧ p ≠ 0 ∧ (50001 : ℚ) = p := by
  have hmem : ((alertC7, (50001 : ℚ))) ∈ (checkAlerts [alertC7] pricesC7 7).1 := by
    rw [alert_one_shot.2.1]
    simp
  simpa using alert_one_shot.1 [alertC7] pricesC7 7 (alertC7, 50001) hmem

/-- C10 counterexample: the claim quantifies over every prior state of the
stored list, but `add` only de-duplicates the incoming id — a prior state that
already contains a duplicated id keeps the duplicate, so "no id occurs more
than once" fails for the prior state `[sDup, sDup]`. -/
theorem search_add_dup_prior_cex :
    searchAdd 10 1 [sDup, sDup] sNew =
      [{ id := "b", symbol := "B", name := "Bcoin", image := "", searchedAt := 1 }, sDup, sDup] ∧
    ¬ ((searchAdd 10 1 [sDup, sDup] sNew).map SearchItem.id).Nodup := by
  constructor
  · decide
  · decide

/-- C10 (amended): for every prior list state, after `add` the list has length
at most `maxItems` and the added item's id is at index 0 (for any positive
`maxItems`); and provided no id occurred more than once before the operation,
`add` leaves no duplicated id (an already-present id is moved to the front,
not duplicated), and `remove` / `clear` likewise preserve distinctness. -/
theorem search_add_invariants_amended (maxItems now : Nat) (searches : List SearchItem)
    (item : SearchItem) (itemId : String) (hmax : 1 ≤ maxItems) :
    (searchAdd maxItems now searches item).length ≤ maxItems ∧
    ((searchAdd maxItems now searches item).head?.map SearchItem.id = some item.id) ∧
    ((searches.map SearchItem.id).Nodup →
      ((searchAdd maxItems now searches item).map SearchItem.id).Nodup) ∧
    ((searches.map SearchItem.id).Nodup →
      ((searchRemove searches itemId).map SearchItem.id).Nodup) ∧
    (searchClear.map SearchItem.id).Nodup := by
  have hs1 : ∀ x ∈ searches.filter (fun s => !(s.id == item.id)), x.id ≠ item.id := by
    intro x hx
    have h2 := List.of_mem_filter hx
    simp at h2
    exact h2
  refine ⟨?_, ?_, ?_, ?_, by simp [searchClear]⟩
  · rw [searchAdd]
    split
    · simp [Nat.min_le_left]
    · omega
  · rw [searchAdd]
    obtain ⟨m, rfl⟩ : ∃ m, maxItems = m + 1 := ⟨maxItems - 1, by omega⟩
    split
    · simp [List.take_cons]
    · simp
  · intro hnd
    have hnds1 : ((searches.filter (fun s => !(s.id == item.id))).map SearchItem.id).Nodup :=
      hnd.sublist ((List.filter_sublist searches).map SearchItem.id)
    have hmemf : item.id ∉ (searches.filter (fun s => !(s.id == item.id))).map SearchItem.id := by
      intro hmem
      obtain ⟨x, hx, hxid⟩ := List.mem_map.mp hmem
      exact hs1 x hx hxid
    rw [searchAdd]
    split
    · rw [List.map_take]
      exact List.Nodup.sublist (List.take_sublist maxItems _)
        (by simp only [List.map_cons, List.nodup_cons]; exact ⟨hmemf, hnds1⟩)
    · simp only [List.map_cons, List.nodup_cons]
      exact ⟨hmemf, hnds1⟩
  · intro hnd
    exact hnd.sublist ((List.filter_sublist searches).map SearchItem.id)

theorem search_add_invariants_amended_witness :
    (searchAdd 10 4 [sDup] sNew).length ≤ 10 ∧
    ((searchAdd 10 4 [sDup] sNew).map SearchItem.id).Nodup := by
  have h := search_add_invariants_amended 10 4 [sDup] sNew "z" (by norm_num)
  exact ⟨h.1, h.2.2.1 (by decide)⟩

end CryptoHub
